import Mathlib

/-!
Verification of the client-side cryptographic core of the Farewell dApp front end.

The development shallowly embeds the TypeScript sources:
  - `packages/site/lib/bit128.ts` (128-bit hex codec),
  - `packages/site/lib/aes.ts` (AES-GCM packing, key import/export, key-integer bridge),
  - the `RelayerSDKLoader` WASM-loading patch.

JavaScript values are modelled as follows: `Uint8Array` contents as `List Nat`
(each entry a byte below 256), strings as `String`/`List Char`, `BigInt` as
`Nat`/`Int` with explicit reductions modulo powers of two where JavaScript
masks, and thrown exceptions as `Except JsError`.  The platform primitives the
code calls but does not define (`crypto.subtle`, `TextEncoder`/`TextDecoder`)
are abstracted as a `SubtleCrypto` record; theorems that need their documented
contracts take them as explicit hypotheses.
-/

set_option maxHeartbeats 1000000
set_option maxRecDepth 20000

deriving instance DecidableEq for Except

namespace Farewell

/-- A thrown JavaScript error, reduced to the observable `name` and `message`.
A plain `new Error(msg)` has name `"Error"`; platform DOMExceptions carry names
such as `"OperationError"`. -/
structure JsError where
  name : String
  message : String
deriving DecidableEq

/-! ### Shared character and hex utilities -/

/-- Lowercase hex digit characters, as produced by JavaScript
`Number.prototype.toString(16)` and `BigInt.prototype.toString(16)`.
The final catch-all case is unreachable for inputs below 16. -/
def hexDigitChar (d : Nat) : Char :=
  match d with
  | 0 => '0' | 1 => '1' | 2 => '2' | 3 => '3'
  | 4 => '4' | 5 => '5' | 6 => '6' | 7 => '7'
  | 8 => '8' | 9 => '9' | 10 => 'a' | 11 => 'b'
  | 12 => 'c' | 13 => 'd' | 14 => 'e' | 15 => 'f'
  | _ => '0'

/-- Membership in the character class `[0-9a-f]` of the bit128.ts regex,
written over code points (48-57 are `0`-`9`, 97-102 are `a`-`f`). -/
def isHexLowerDigit (c : Char) : Bool :=
  (48 ≤ c.toNat && c.toNat ≤ 57) || (97 ≤ c.toNat && c.toNat ≤ 102)

/-- Value of a lowercase hex digit (junk value 0 elsewhere; callers guard with
`isHexLowerDigit`). -/
def hexLowerVal (c : Char) : Nat :=
  if 48 ≤ c.toNat && c.toNat ≤ 57 then c.toNat - 48
  else if 97 ≤ c.toNat && c.toNat ≤ 102 then c.toNat - 87
  else 0

/-- Numeric value of a hex digit string, as computed by the JavaScript hex
literal parse `BigInt("0x" + s)`. -/
def hexFoldVal (cs : List Char) : Nat :=
  cs.foldl (fun v c => 16 * v + hexLowerVal c) 0

/-- Whitespace characters removed by JavaScript `String.prototype.trim`: the
ECMA-262 WhiteSpace production (TAB, VT, FF, SP, NBSP, ZWNBSP and the Unicode
Space_Separator category: U+1680, U+2000-U+200A, U+202F, U+205F, U+3000)
together with the LineTerminator production (LF, CR, LS U+2028, PS U+2029). -/
def isJsWhitespace (c : Char) : Bool :=
  c.toNat == 9 || c.toNat == 10 || c.toNat == 11 || c.toNat == 12 ||
  c.toNat == 13 || c.toNat == 32 || c.toNat == 0xa0 || c.toNat == 0x1680 ||
  (0x2000 ≤ c.toNat && c.toNat ≤ 0x200a) || c.toNat == 0x2028 ||
  c.toNat == 0x2029 || c.toNat == 0x202f || c.toNat == 0x205f ||
  c.toNat == 0x3000 || c.toNat == 0xfeff

/-- JavaScript `String.prototype.trim`: drop whitespace from both ends. -/
def trimChars (cs : List Char) : List Char :=
  ((cs.dropWhile isJsWhitespace).reverse.dropWhile isJsWhitespace).reverse

/-- Boolean string-prelude test, JavaScript `String.prototype.startsWith`. -/
def leadsWith : List Char → List Char → Bool
  | [], _ => true
  | _ :: _, [] => false
  | p :: ps, c :: cs => p == c && leadsWith ps cs

/-- The `hex.startsWith("0x") ? hex.slice(2) : hex` step shared by bit128.ts
and the aes.ts `strip0x` helper. -/
def strip0x (cs : List Char) : List Char :=
  if leadsWith "0x".data cs then cs.drop 2 else cs

/-- The `hex.trim().toLowerCase()` step of bit128.ts `hex16ToBigint`. -/
def jsLowerTrim (cs : List Char) : List Char :=
  (trimChars cs).map Char.toLower

/-! ### bit128.ts -/

/-- The error thrown by `hex16ToBigint` on a non-hex character
(spec taxonomy member `InvalidHexFormat`). -/
def invalidHexError : JsError := ⟨"Error", "Invalid hex"⟩

/-- The error thrown by `hex16ToBigint` on more than 32 hex digits
(spec taxonomy member `TooManyDigits`). -/
def tooManyHexDigitsError : JsError := ⟨"Error", "Too many hex digits for 128-bit"⟩

/-- bit128.ts `hex16ToBigint`.  The final JavaScript step `v & mask` with the
all-ones 128-bit mask equals reduction modulo `2 ^ 128` on the nonnegative
parsed value, written here as `% 2 ^ 128`. -/
def hex16ToBigintChars (hex : List Char) : Except JsError Nat :=
  let s := strip0x (jsLowerTrim hex)
  if s.length = 0 then .ok 0
  else if !(s.all isHexLowerDigit) then .error invalidHexError
  else if s.length > 32 then .error tooManyHexDigitsError
  else .ok (hexFoldVal s % 2 ^ 128)

/-- String-level wrapper of `hex16ToBigintChars`. -/
def hex16ToBigint (hex : String) : Except JsError Nat :=
  hex16ToBigintChars hex.data

/-- JavaScript `x.toString(16)` on a nonnegative `BigInt`: minimal-length
lowercase hex digits, `"0"` for zero. -/
def natToHexChars (n : Nat) : List Char :=
  if _h : n < 16 then [hexDigitChar n]
  else natToHexChars (n / 16) ++ [hexDigitChar (n % 16)]
decreasing_by exact Nat.div_lt_self (by omega) (by omega)

/-- The `if (s.length < 32) s = "0".repeat(32 - s.length) + s` step of
bit128.ts `bigintToHex16`. -/
def padTo32 (s : List Char) : List Char :=
  if s.length < 32 then List.replicate (32 - s.length) '0' ++ s else s

/-- bit128.ts `bigintToHex16`.  JavaScript `v & mask` on a possibly negative
`BigInt` with the all-ones 128-bit mask is the nonnegative remainder of `v`
modulo `2 ^ 128` (infinite two's complement), i.e. `Int.emod` by `2 ^ 128`;
the digits are then left-padded with `"0"` to 32 and prefixed with `"0x"`. -/
def bigintToHex16Chars (v : Int) : List Char :=
  '0' :: 'x' :: padTo32 (natToHexChars (v % (2 ^ 128 : Int)).toNat)

/-- String-level wrapper of `bigintToHex16Chars`. -/
def bigintToHex16 (v : Int) : String :=
  ⟨bigintToHex16Chars v⟩

/-! ### aes.ts: hex packing helpers -/

/-- JavaScript `x.toString(16).padStart(2, "0")` on a byte value below 256:
two lowercase hex digits. -/
def byteToHexChars (b : Nat) : List Char :=
  if b < 16 then ['0', hexDigitChar b]
  else [hexDigitChar (b / 16), hexDigitChar (b % 16)]

/-- aes.ts `bytesToHex`: concatenation of two-digit lowercase hex per byte,
then a `"0x"` prelude. -/
def bytesToHexChars (bs : List Nat) : List Char :=
  '0' :: 'x' :: (bs.map byteToHexChars).flatten

/-- String-level wrapper of `bytesToHexChars`. -/
def bytesToHex (bs : List Nat) : String :=
  ⟨bytesToHexChars bs⟩

/-- aes.ts `bufToHex` (used by `printKeyHex`): same digits without the `"0x"`
prelude. -/
def bufToHexChars (bs : List Nat) : List Char :=
  (bs.map byteToHexChars).flatten

/-- Hex digit value accepted by JavaScript `parseInt(_, 16)`: both letter
cases, written over code points (65-70 are `A`-`F`). -/
def jsHexDigitVal (c : Char) : Option Nat :=
  if 48 ≤ c.toNat && c.toNat ≤ 57 then some (c.toNat - 48)
  else if 97 ≤ c.toNat && c.toNat ≤ 102 then some (c.toNat - 87)
  else if 65 ≤ c.toNat && c.toNat ≤ 70 then some (c.toNat - 55)
  else none

/-- JavaScript `parseInt(pair, 16)` on a two-character slice followed by the
`Uint8Array` store coercion (`NaN` becomes 0): `parseInt` reads the longest
hex-digit run from the start of the slice.  (`parseInt`'s tolerance of leading
whitespace or a sign inside a slice is not modelled; no claim below reaches
such a slice.) -/
def parseIntHex2 (c1 c2 : Char) : Nat :=
  match jsHexDigitVal c1 with
  | none => 0
  | some d1 =>
    match jsHexDigitVal c2 with
    | none => d1
    | some d2 => 16 * d1 + d2

/-- The byte-pair loop of aes.ts `hexToBytes`. -/
def pairsToBytes : List Char → List Nat
  | c1 :: c2 :: rest => parseIntHex2 c1 c2 :: pairsToBytes rest
  | _ => []

/-- The error thrown by aes.ts `hexToBytes` on odd input length. -/
def hexStrLengthOddError : JsError := ⟨"Error", "hex string has odd length"⟩

/-- aes.ts `hexToBytes` (the revision used on the decrypt path): strips `0x`,
rejects odd length, then parses consecutive byte pairs. -/
def hexToBytesChars (hex : List Char) : Except JsError (List Nat) :=
  let clean := strip0x hex
  if clean.length % 2 ≠ 0 then .error hexStrLengthOddError
  else .ok (pairsToBytes clean)

/-! ### aes.ts: the AES-GCM packing layer

The platform primitives (`crypto.subtle` and `TextEncoder`/`TextDecoder`) are
outside the repository; they are abstracted as a record of functions, and the
theorems that need their documented contracts state them as hypotheses. -/

/-- Abstract platform record: AES-GCM encrypt (key, iv, plaintext to
ciphertext-with-tag), AES-GCM decrypt (key, iv, tag length in bits, optional
associated data, ciphertext-with-tag), and the UTF-8 codec. -/
structure SubtleCrypto where
  aesGcmEncrypt : List Nat → List Nat → List Nat → List Nat
  aesGcmDecrypt : List Nat → List Nat → Nat → Option (List Nat) → List Nat →
    Except JsError (List Nat)
  utf8Encode : String → List Nat
  utf8Decode : List Nat → String

/-- aes.ts `encryptUtf8AesGcmPacked`: UTF-8 encode, AES-GCM encrypt under the
fresh 12-byte `iv` (passed explicitly, standing for `crypto.getRandomValues`),
pack as `0x`-hex of `iv || ciphertext-with-tag`. -/
def encryptUtf8AesGcmPacked (P : SubtleCrypto) (iv : List Nat) (s : String)
    (key : List Nat) : String :=
  let pt := P.utf8Encode s
  let ct := P.aesGcmEncrypt key iv pt
  bytesToHex (iv ++ ct)

/-- aes.ts `printKeyHex`: exports the key (raw-byte key model: the export is
the key's bytes) and logs its hex; this is the console line produced. -/
def printKeyHexLine (key : List Nat) : String :=
  ⟨"Key (hex): ".data ++ bufToHexChars key⟩

/-- The aes.ts revision of `encryptUtf8AesGcmPacked` that opens with
`await printKeyHex(key)`: same returned value, plus the console lines emitted
by the call. -/
def encryptUtf8AesGcmPackedLogged (P : SubtleCrypto) (iv : List Nat) (s : String)
    (key : List Nat) : String × List String :=
  (encryptUtf8AesGcmPacked P iv s key, [printKeyHexLine key])

/-- The error thrown by the decrypt length guard. -/
def cipherTooShortError : JsError := ⟨"Error", "cipher too short (missing IV or tag)"⟩

/-- The catch-all wrapper of `decryptUtf8AesGcmPacked`: any error thrown in the
body is replaced by a fresh `Error` whose message embeds the caught error's
name when that name is truthy (non-empty). -/
def wrapAesDecryptError (e : JsError) : JsError :=
  if e.name ≠ "" then
    ⟨"Error", "AES-GCM decrypt failed: " ++ e.name ++ " (likely key/IV/tag/AAD mismatch)"⟩
  else ⟨"Error", "AES-GCM decrypt failed (likely key/IV/tag/AAD mismatch)"⟩

/-- The part of the decrypt try-block after `hexToBytes` succeeded: guard
`data.length < 12 + tagLengthBits / 8`, split the 12-byte IV with
`slice(0, 12)` / `slice(12)`, platform decrypt, UTF-8 decode. -/
def decryptAfterDecode (P : SubtleCrypto) (key : List Nat)
    (aad : Option (List Nat)) (tagLengthBits : Nat) (data : List Nat) :
    Except JsError String :=
  if data.length < 12 + tagLengthBits / 8 then .error cipherTooShortError
  else
    match P.aesGcmDecrypt key (data.take 12) tagLengthBits aad (data.drop 12) with
    | .error e => .error e
    | .ok pt => .ok (P.utf8Decode pt)

/-- The try-block body of `decryptUtf8AesGcmPacked` (aes.ts decrypt revision
shared with part_006 lines 1239-1277): hex-decode, then `decryptAfterDecode`.
-/
def decryptUtf8AesGcmPackedBody (P : SubtleCrypto) (packed : String)
    (key : List Nat) (aad : Option (List Nat)) (tagLengthBits : Nat) :
    Except JsError String :=
  match hexToBytesChars packed.data with
  | .error e => .error e
  | .ok data => decryptAfterDecode P key aad tagLengthBits data

/-- aes.ts `decryptUtf8AesGcmPacked`: the body under the catch-all that
re-throws every failure through `wrapAesDecryptError`.  The call sites use
`aad = none` and `tagLengthBits = 128` (the source defaults). -/
def decryptUtf8AesGcmPacked (P : SubtleCrypto) (packed : String)
    (key : List Nat) (aad : Option (List Nat)) (tagLengthBits : Nat) :
    Except JsError String :=
  match decryptUtf8AesGcmPackedBody P packed key aad tagLengthBits with
  | .ok s => .ok s
  | .error e => .error (wrapAesDecryptError e)

/-! ### aes.ts: key import/export -/

/-- Platform `CryptoKey` handle: the raw material plus the extractability flag
fixed at import time. -/
structure CryptoKeyModel where
  raw : List Nat
  extractable : Bool
deriving DecidableEq

/-- Platform `crypto.subtle.importKey("raw", ...)`. -/
def subtleImportRaw (raw : List Nat) (extractable : Bool) : CryptoKeyModel :=
  ⟨raw, extractable⟩

/-- Platform `crypto.subtle.exportKey("raw", ...)`: the raw material, failing
with `InvalidAccessError` on a non-extractable key. -/
def subtleExportRaw (k : CryptoKeyModel) : Except JsError (List Nat) :=
  if k.extractable then .ok k.raw
  else .error ⟨"InvalidAccessError", "key is not extractable"⟩

/-- The error thrown by `aesImportRaw16` on a wrong-sized key. -/
def keyLengthError : JsError := ⟨"Error", "Key must be 16 bytes"⟩

/-- The error thrown by `aesExportRaw16` when the platform export is not 16
bytes. -/
def exportLengthError : JsError := ⟨"Error", "Exported key not 16 bytes"⟩

/-- aes.ts `aesImportRaw16` (lib revision, lines 50-66): rejects input that is
not exactly 16 bytes, then imports the raw material with `extractable = true`.
-/
def aesImportRaw16 (raw : List Nat) : Except JsError CryptoKeyModel :=
  if raw.length ≠ 16 then .error keyLengthError
  else .ok (subtleImportRaw raw true)

/-- aes.ts `aesExportRaw16`: platform export followed by the 16-byte sanity
check. -/
def aesExportRaw16 (key : CryptoKeyModel) : Except JsError (List Nat) :=
  match subtleExportRaw key with
  | .error e => .error e
  | .ok raw => if raw.length ≠ 16 then .error exportLengthError else .ok raw

/-! ### aes.ts: key to 128-bit integer bridge -/

/-- aes.ts `key16ToBigint`: big-endian fold `v = (v << 8) | b` over the bytes.
-/
def key16ToBigint (k : List Nat) : Nat :=
  k.foldl (fun v b => (v <<< 8) ||| b) 0

/-- The loop of aes.ts `bigintToKey16`, which fills indices 15 down to 0 with
`out[i] = Number(v & 0xff)` followed by `v >>= 8`: position `i` of the result
receives the byte written after `15 - i` shifts, so the loop over `i + 1`
cells equals the recursion on the shifted value followed by the low byte. -/
def bigintToKey16Aux : Nat → Nat → List Nat
  | 0, _ => []
  | i + 1, v => bigintToKey16Aux i (v >>> 8) ++ [v &&& 0xff]

/-- aes.ts `bigintToKey16`: the 16-cell loop. -/
def bigintToKey16 (v : Nat) : List Nat :=
  bigintToKey16Aux 16 v

/-! ### RelayerSDKLoader (part_003): WASM loading patch -/

/-- A fetch request as the installed wrapper sees it: `raw` is the url string
extracted from the fetch input, and `origin`, `pathname`, `search`, `hash` are
the components of `new URL(raw, window.location.origin)`. -/
structure FetchRequest where
  raw : List Char
  origin : List Char
  pathname : List Char
  search : List Char
  hash : List Char

/-- JavaScript `String.prototype.endsWith`. -/
def endsWithChars (suf s : List Char) : Bool :=
  leadsWith suf.reverse s.reverse

/-- JavaScript `String.prototype.includes`. -/
def hasSub (p : List Char) : List Char → Bool
  | [] => leadsWith p []
  | c :: cs => leadsWith p (c :: cs) || hasSub p cs

/-- The fetch wrapper installed by `_patchWasmLoading`: the url finally handed
to the original fetch.  The source rewrites when the url ends with or contains
`".wasm"` and the parsed pathname starts with `"/"` but not with the base
path, producing `origin + basePath + pathname + search + hash`; every other
request is delegated unmodified. -/
def patchedFetchTarget (basePath : List Char) (r : FetchRequest) : List Char :=
  if endsWithChars ".wasm".data r.raw || hasSub ".wasm".data r.raw then
    if leadsWith "/".data r.pathname && !(leadsWith basePath r.pathname) then
      r.origin ++ basePath ++ r.pathname ++ r.search ++ r.hash
    else r.raw
  else r.raw

/-- Loader patch state: the `_wasmPatchApplied` flag plus counters of how many
wrappers have been installed around `window.fetch` and
`WebAssembly.instantiateStreaming`. -/
structure PatchState where
  wasmPatchApplied : Bool
  fetchWrapCount : Nat
  instantiateWrapCount : Nat
deriving DecidableEq

/-- Constructor state of `RelayerSDKLoader`: flag down, nothing wrapped. -/
def initialPatchState : PatchState := ⟨false, 0, 0⟩

/-- part_003 `_patchWasmLoading`, as invoked on every `load()` call: early
return when the flag is already set; set the flag; early return when the base
path is empty (no patching); otherwise wrap both platform primitives once. -/
def patchWasmLoading (basePath : List Char) (st : PatchState) : PatchState :=
  if st.wasmPatchApplied then st
  else if basePath.isEmpty then ⟨true, st.fetchWrapCount, st.instantiateWrapCount⟩
  else ⟨true, st.fetchWrapCount + 1, st.instantiateWrapCount + 1⟩

/-! ### Concrete platform instances used by the witnesses -/

/-- Three bytes per character: a concrete injective byte encoding of strings
used to instantiate the abstract UTF-8 codec in witnesses. -/
def encode3 : List Char → List Nat
  | [] => []
  | c :: rest => c.toNat / 65536 :: c.toNat / 256 % 256 :: c.toNat % 256 :: encode3 rest

/-- Inverse of `encode3`. -/
def decode3 : List Nat → List Char
  | a :: b :: c :: rest => Char.ofNat (a * 65536 + b * 256 + c) :: decode3 rest
  | _ => []

/-- A concrete `SubtleCrypto` witness instance: the cipher reduces plaintext
bytes modulo 256 and appends a 16-byte zero tag; decrypt drops the tag. -/
def toySubtle : SubtleCrypto where
  aesGcmEncrypt := fun _ _ pt => pt.map (fun b => b % 256) ++ List.replicate 16 0
  aesGcmDecrypt := fun _ _ _ _ ct => .ok (ct.take (ct.length - 16))
  utf8Encode := fun s => encode3 s.data
  utf8Decode := fun bs => ⟨decode3 bs⟩

/-- A concrete `SubtleCrypto` instance whose decrypt always fails with the
platform `OperationError`, as WebCrypto does on any AES-GCM mismatch. -/
def opErrSubtle : SubtleCrypto where
  aesGcmEncrypt := fun _ _ pt => pt ++ List.replicate 16 0
  aesGcmDecrypt := fun _ _ _ _ _ => .error ⟨"OperationError", ""⟩
  utf8Encode := fun s => encode3 s.data
  utf8Decode := fun bs => ⟨decode3 bs⟩

end Farewell

namespace Farewell

/-! ### Lemmas about the hex codec -/

theorem hexDigitChar_spec (d : Nat) (hd : d < 16) :
    hexLowerVal (hexDigitChar d) = d ∧ isHexLowerDigit (hexDigitChar d) = true ∧
    Char.toLower (hexDigitChar d) = hexDigitChar d ∧
    isJsWhitespace (hexDigitChar d) = false := by
  interval_cases d <;> exact ⟨by decide, by decide, by decide, by decide⟩

theorem natToHexChars_mem (n : Nat) :
    ∀ c ∈ natToHexChars n, ∃ d, d < 16 ∧ c = hexDigitChar d := by
  induction n using Nat.strong_induction_on with
  | _ n ih =>
    intro c hc
    rw [natToHexChars] at hc
    by_cases h : n < 16
    · rw [dif_pos h] at hc
      simp only [List.mem_singleton] at hc
      exact ⟨n, h, hc⟩
    · rw [dif_neg h] at hc
      rcases List.mem_append.mp hc with h1 | h2
      · exact ih (n / 16) (Nat.div_lt_self (by omega) (by omega)) c h1
      · simp only [List.mem_singleton] at h2
        exact ⟨n % 16, Nat.mod_lt _ (by omega), h2⟩

theorem hexFoldVal_append_singleton (cs : List Char) (c : Char) :
    hexFoldVal (cs ++ [c]) = 16 * hexFoldVal cs + hexLowerVal c := by
  simp [hexFoldVal, List.foldl_append]

theorem hexFoldVal_natToHexChars (n : Nat) :
    hexFoldVal (natToHexChars n) = n := by
  induction n using Nat.strong_induction_on with
  | _ n ih =>
    rw [natToHexChars]
    by_cases h : n < 16
    · rw [dif_pos h]
      simp [hexFoldVal, (hexDigitChar_spec n h).1]
    · rw [dif_neg h]
      rw [hexFoldVal_append_singleton]
      rw [ih (n / 16) (Nat.div_lt_self (by omega) (by omega))]
      rw [(hexDigitChar_spec (n % 16) (Nat.mod_lt _ (by omega))).1]
      omega

theorem natToHexChars_length_le (k : Nat) (hk : 1 ≤ k) :
    ∀ n, n < 16 ^ k → (natToHexChars n).length ≤ k := by
  induction k with
  | zero => omega
  | succ k ihk =>
    intro n hn
    rw [natToHexChars]
    by_cases h : n < 16
    · rw [dif_pos h]; simp
    · rw [dif_neg h]
      have hk1 : 1 ≤ k := by
        by_contra hc
        have : k = 0 := by omega
        subst this
        simp at hn
        omega
      have hdiv : n / 16 < 16 ^ k := by
        rw [Nat.div_lt_iff_lt_mul (by omega)]
        calc n < 16 ^ (k + 1) := hn
        _ = 16 ^ k * 16 := by rw [Nat.pow_succ]
      have := ihk hk1 (n / 16) hdiv
      simp only [List.length_append, List.length_singleton]
      omega

theorem hexFoldVal_replicate_zero (m : Nat) (s : List Char) :
    hexFoldVal (List.replicate m '0' ++ s) = hexFoldVal s := by
  induction m with
  | zero => simp
  | succ m ih =>
    rw [List.replicate_succ, List.cons_append]
    unfold hexFoldVal at ih ⊢
    rw [List.foldl_cons]
    have h0 : (16 * 0 + hexLowerVal '0') = 0 := by decide
    rw [h0]
    exact ih

theorem dropWhile_eq_self_of_not (p : Char → Bool) (l : List Char)
    (h : ∀ c ∈ l, p c = false) : l.dropWhile p = l := by
  cases l with
  | nil => rfl
  | cons c cs =>
    rw [List.dropWhile_cons]
    rw [h c (List.mem_cons_self c cs)]
    simp

theorem trimChars_eq_self (l : List Char)
    (h : ∀ c ∈ l, isJsWhitespace c = false) : trimChars l = l := by
  unfold trimChars
  rw [dropWhile_eq_self_of_not _ _ h]
  rw [dropWhile_eq_self_of_not _ _ (by intro c hc; exact h c (List.mem_reverse.mp hc))]
  exact List.reverse_reverse l

theorem map_toLower_eq_self (l : List Char)
    (h : ∀ c ∈ l, Char.toLower c = c) : l.map Char.toLower = l := by
  rw [List.map_congr_left h]
  simp

theorem padTo32_spec (n : Nat) (hn : n < 16 ^ 32) :
    (padTo32 (natToHexChars n)).length = 32
  ∧ (∀ c ∈ padTo32 (natToHexChars n),
      isHexLowerDigit c = true ∧ Char.toLower c = c ∧ isJsWhitespace c = false)
  ∧ hexFoldVal (padTo32 (natToHexChars n)) = n := by
  have hsl : (natToHexChars n).length ≤ 32 :=
    natToHexChars_length_le 32 (by norm_num) n hn
  have hmem : ∀ c ∈ natToHexChars n,
      isHexLowerDigit c = true ∧ Char.toLower c = c ∧ isJsWhitespace c = false := by
    intro c hc
    obtain ⟨d, hd, rfl⟩ := natToHexChars_mem n c hc
    obtain ⟨-, h1, h2, h3⟩ := hexDigitChar_spec d hd
    exact ⟨h1, h2, h3⟩
  unfold padTo32
  by_cases h : (natToHexChars n).length < 32
  · rw [if_pos h]
    refine ⟨?_, ?_, ?_⟩
    · simp only [List.length_append, List.length_replicate]
      omega
    · intro c hc
      rcases List.mem_append.mp hc with hr | hs
      · have : c = '0' := List.eq_of_mem_replicate hr
        subst this
        exact ⟨by decide, by decide, by decide⟩
      · exact hmem c hs
    · rw [hexFoldVal_replicate_zero, hexFoldVal_natToHexChars]
  · rw [if_neg h]
    exact ⟨by omega, hmem, hexFoldVal_natToHexChars n⟩

theorem hex16ToBigintChars_clean_hex (padded : List Char)
    (hall : ∀ c ∈ padded,
      isHexLowerDigit c = true ∧ Char.toLower c = c ∧ isJsWhitespace c = false)
    (hlen : padded.length = 32) :
    hex16ToBigintChars ('0' :: 'x' :: padded) = .ok (hexFoldVal padded % 2 ^ 128) := by
  have htrim : trimChars ('0' :: 'x' :: padded) = '0' :: 'x' :: padded := by
    apply trimChars_eq_self
    intro c hc
    simp only [List.mem_cons] at hc
    rcases hc with rfl | rfl | hc
    · decide
    · decide
    · exact (hall c hc).2.2
  have hlow : ('0' :: 'x' :: padded).map Char.toLower = '0' :: 'x' :: padded := by
    apply map_toLower_eq_self
    intro c hc
    simp only [List.mem_cons] at hc
    rcases hc with rfl | rfl | hc
    · decide
    · decide
    · exact (hall c hc).2.1
  have hstrip : strip0x ('0' :: 'x' :: padded) = padded := by
    unfold strip0x
    have hl : leadsWith "0x".data ('0' :: 'x' :: padded) = true := by
      show leadsWith ['0', 'x'] ('0' :: 'x' :: padded) = true
      simp [leadsWith]
    rw [hl]
    rfl
  have hallb : padded.all isHexLowerDigit = true :=
    List.all_eq_true.mpr fun c hc => (hall c hc).1
  unfold hex16ToBigintChars jsLowerTrim
  rw [htrim, hlow, hstrip]
  rw [if_neg (by omega), if_neg (by rw [hallb]; decide), if_neg (by omega)]

/-- C5: for every integer `x`, `hex16ToBigint (bigintToHex16 x)` succeeds with
`x mod 2^128`; moreover `bigintToHex16` always renders a `0x` prelude followed
by exactly 32 lowercase hex digits. -/
theorem hex16_roundtrip (x : Int) :
    hex16ToBigint (bigintToHex16 x) = .ok (x % (2 ^ 128 : Int)).toNat
  ∧ (bigintToHex16 x).data.length = 34
  ∧ leadsWith "0x".data (bigintToHex16 x).data = true
  ∧ ((bigintToHex16 x).data.drop 2).all isHexLowerDigit = true := by
  have hdata : (bigintToHex16 x).data
      = '0' :: 'x' :: padTo32 (natToHexChars (x % (2 ^ 128 : Int)).toNat) := rfl
  have h2 : (0 : Int) < 2 ^ 128 := by positivity
  have hn : (x % (2 ^ 128 : Int)).toNat < 16 ^ 32 := by
    have hlt : x % 2 ^ 128 < 2 ^ 128 := Int.emod_lt_of_pos x h2
    have h0 : 0 ≤ x % (2 ^ 128 : Int) := Int.emod_nonneg x (ne_of_gt h2)
    have hcast : ((16 ^ 32 : Nat) : Int) = 2 ^ 128 := by norm_num
    omega
  obtain ⟨hplen, hpmem, hpval⟩ := padTo32_spec _ hn
  refine ⟨?_, ?_, ?_, ?_⟩
  · show hex16ToBigintChars (bigintToHex16 x).data = _
    rw [hdata, hex16ToBigintChars_clean_hex _ hpmem hplen, hpval,
      Nat.mod_eq_of_lt (lt_of_lt_of_le hn (by norm_num))]
  · rw [hdata]
    simp only [List.length_cons, hplen]
  · rw [hdata]
    show leadsWith ['0', 'x'] _ = true
    simp [leadsWith]
  · rw [hdata]
    show (padTo32 _).all _ = true
    exact List.all_eq_true.mpr fun c hc => (hpmem c hc).1

/-- C9 counterexample: the input `" a"` contains the non-hex character `' '`,
yet `hex16ToBigint` accepts it (the code trims whitespace first) instead of
raising `InvalidHexFormat`. -/
theorem hex16_whitespace_counterexample :
    hex16ToBigint " a" = .ok 10 ∧ isHexLowerDigit ' ' = false ∧
    isJsWhitespace ' ' = true := by
  decide

/-- C9 (amended): on the trimmed, lowercased, `0x`-stripped content,
`hex16ToBigint` maps empty content (in particular the empty string) to zero,
raises `InvalidHexFormat` on any remaining non-hex character, raises
`TooManyDigits` on more than 32 hex digits, and otherwise parses the digits
modulo `2 ^ 128`; leading and trailing whitespace is trimmed, not rejected. -/
theorem hex16_parse_spec (s : String) :
    (hex16ToBigint "" = .ok 0)
  ∧ (strip0x (jsLowerTrim s.data) ≠ [] →
      (strip0x (jsLowerTrim s.data)).all isHexLowerDigit = false →
      hex16ToBigint s = .error invalidHexError)
  ∧ ((strip0x (jsLowerTrim s.data)).all isHexLowerDigit = true →
      32 < (strip0x (jsLowerTrim s.data)).length →
      hex16ToBigint s = .error tooManyHexDigitsError)
  ∧ ((strip0x (jsLowerTrim s.data)).all isHexLowerDigit = true →
      (strip0x (jsLowerTrim s.data)).length ≤ 32 →
      hex16ToBigint s = .ok (hexFoldVal (strip0x (jsLowerTrim s.data)) % 2 ^ 128)) := by
  refine ⟨by decide, ?_, ?_, ?_⟩
  · intro hne hbad
    unfold hex16ToBigint hex16ToBigintChars
    rw [if_neg (by simpa using hne), if_pos (by rw [hbad]; decide)]
  · intro hok hlong
    unfold hex16ToBigint hex16ToBigintChars
    rw [if_neg (by omega), if_neg (by rw [hok]; decide), if_pos (by omega)]
  · intro hok hshort
    unfold hex16ToBigint hex16ToBigintChars
    by_cases hz : (strip0x (jsLowerTrim s.data)).length = 0
    · rw [if_pos hz]
      have : strip0x (jsLowerTrim s.data) = [] := List.length_eq_zero.mp hz
      rw [this]
      decide
    · rw [if_neg hz, if_neg (by rw [hok]; decide), if_neg (by omega)]

/-- C9 witness: concrete inputs exercising each branch of `hex16_parse_spec`. -/
theorem hex16_parse_spec_witness :
    hex16ToBigint "zz" = .error invalidHexError
  ∧ hex16ToBigint "111111111111111111111111111111111" = .error tooManyHexDigitsError
  ∧ hex16ToBigint "0xAB" = .ok 171 := by
  refine ⟨?_, ?_, ?_⟩
  · exact (hex16_parse_spec "zz").2.1 (by decide) (by decide)
  · exact (hex16_parse_spec "111111111111111111111111111111111").2.2.1
      (by decide) (by decide)
  · have h := (hex16_parse_spec "0xAB").2.2.2 (by decide) (by decide)
    rw [h]
    decide

/-! ### Lemmas about the key to 128-bit integer bridge -/

theorem shl8_or_eq (v b : Nat) (hb : b < 256) : (v <<< 8) ||| b = 256 * v + b := by
  have h28 : (2 : Nat) ^ 8 = 256 := by norm_num
  have hb2 : b < 2 ^ 8 := by omega
  calc (v <<< 8) ||| b = v * 2 ^ 8 ||| b := by rw [Nat.shiftLeft_eq]
    _ = 2 ^ 8 * v ||| b := by rw [Nat.mul_comm]
    _ = 2 ^ 8 * v + b := (Nat.mul_add_lt_is_or hb2 v).symm
    _ = 256 * v + b := by rw [h28]

theorem and255_eq_mod (v : Nat) : v &&& 0xff = v % 256 := by
  have h := Nat.and_pow_two_sub_one_eq_mod v 8
  norm_num at h
  exact h

theorem shr8_eq_div (v : Nat) : v >>> 8 = v / 256 := by
  rw [Nat.shiftRight_eq_div_pow]

theorem key16ToBigint_append_byte (k : List Nat) (b : Nat) (hb : b < 256) :
    key16ToBigint (k ++ [b]) = 256 * key16ToBigint k + b := by
  unfold key16ToBigint
  rw [List.foldl_append]
  simp only [List.foldl_cons, List.foldl_nil]
  exact shl8_or_eq _ b hb

theorem mod_mul_decomp (v P : Nat) (hP : 0 < P) :
    v % (256 * P) = 256 * (v / 256 % P) + v % 256 := by
  have hq : v / 256 % P < P := Nat.mod_lt _ hP
  have hr : v % 256 < 256 := Nat.mod_lt _ (by omega)
  have h256P : 256 ≤ 256 * P := by omega
  conv_lhs => rw [← Nat.div_add_mod v 256]
  rw [Nat.add_mod, Nat.mul_mod_mul_left,
    Nat.mod_eq_of_lt (lt_of_lt_of_le hr h256P), Nat.mod_eq_of_lt (by omega)]

theorem bigintToKey16Aux_spec (i : Nat) : ∀ v : Nat,
    (bigintToKey16Aux i v).length = i
  ∧ (∀ b ∈ bigintToKey16Aux i v, b < 256)
  ∧ key16ToBigint (bigintToKey16Aux i v) = v % 256 ^ i := by
  induction i with
  | zero =>
    intro v
    refine ⟨rfl, by simp [bigintToKey16Aux], ?_⟩
    simp [bigintToKey16Aux, key16ToBigint, Nat.mod_one]
  | succ i ih =>
    intro v
    obtain ⟨hl, hmem, hv⟩ := ih (v >>> 8)
    have hlow : v &&& 0xff < 256 := by rw [and255_eq_mod]; exact Nat.mod_lt _ (by omega)
    refine ⟨?_, ?_, ?_⟩
    · show (bigintToKey16Aux i (v >>> 8) ++ [v &&& 0xff]).length = i + 1
      simp [hl]
    · intro b hbmem
      rcases List.mem_append.mp hbmem with h1 | h2
      · exact hmem b h1
      · simp only [List.mem_singleton] at h2
        subst h2
        exact hlow
    · show key16ToBigint (bigintToKey16Aux i (v >>> 8) ++ [v &&& 0xff]) = v % 256 ^ (i + 1)
      rw [key16ToBigint_append_byte _ _ hlow, hv, and255_eq_mod, shr8_eq_div]
      rw [show (256 : Nat) ^ (i + 1) = 256 * 256 ^ i from by ring]
      exact (mod_mul_decomp v (256 ^ i) (Nat.pos_pow_of_pos i (by omega))).symm

theorem bigintToKey16Aux_key16ToBigint (k : List Nat) (hb : ∀ b ∈ k, b < 256) :
    bigintToKey16Aux k.length (key16ToBigint k) = k := by
  induction k using List.reverseRecOn with
  | nil => rfl
  | append_singleton ks b ih =>
    have hbb : b < 256 := hb b (by simp)
    have hks : ∀ x ∈ ks, x < 256 := fun x hx => hb x (by simp [hx])
    rw [key16ToBigint_append_byte ks b hbb]
    rw [show (ks ++ [b]).length = ks.length + 1 from by simp]
    show bigintToKey16Aux ks.length ((256 * key16ToBigint ks + b) >>> 8)
        ++ [(256 * key16ToBigint ks + b) &&& 0xff] = ks ++ [b]
    rw [shr8_eq_div, and255_eq_mod]
    have h1 : (256 * key16ToBigint ks + b) / 256 = key16ToBigint ks := by omega
    have h2 : (256 * key16ToBigint ks + b) % 256 = b := by omega
    rw [h1, h2, ih hks]

/-- C10: `bigintToKey16` is total, returns 16 bytes, encodes `v mod 2^128`
big-endian (folding the result back with `key16ToBigint` recovers
`v mod 2^128`, and values of 128 bits or more are truncated to their low 128
bits), and inverts `key16ToBigint` on every 16-byte array. -/
theorem key16_bigint_roundtrip (v : Nat) (k : List Nat)
    (hk : k.length = 16) (hb : ∀ b ∈ k, b < 256) :
    (bigintToKey16 v).length = 16
  ∧ (∀ b ∈ bigintToKey16 v, b < 256)
  ∧ key16ToBigint (bigintToKey16 v) = v % 2 ^ 128
  ∧ bigintToKey16 v = bigintToKey16 (v % 2 ^ 128)
  ∧ bigintToKey16 (key16ToBigint k) = k := by
  obtain ⟨hl, hmem, hval⟩ := bigintToKey16Aux_spec 16 v
  have hl' : (bigintToKey16 v).length = 16 := hl
  have hmem' : ∀ b ∈ bigintToKey16 v, b < 256 := hmem
  have hpow : (256 : Nat) ^ 16 = 2 ^ 128 := by norm_num
  have hval' : key16ToBigint (bigintToKey16 v) = v % 2 ^ 128 := by
    rw [← hpow]
    exact hval
  refine ⟨hl', hmem', hval', ?_, ?_⟩
  · have h := bigintToKey16Aux_key16ToBigint (bigintToKey16 v) hmem'
    rw [hl', hval'] at h
    exact h.symm
  · have h := bigintToKey16Aux_key16ToBigint k hb
    rw [hk] at h
    exact h

/-- C10 witness: the theorem at `v = 3` and the all-sevens 16-byte key. -/
theorem key16_bigint_roundtrip_witness :
    (bigintToKey16 3).length = 16
  ∧ (∀ b ∈ bigintToKey16 3, b < 256)
  ∧ key16ToBigint (bigintToKey16 3) = 3 % 2 ^ 128
  ∧ bigintToKey16 3 = bigintToKey16 (3 % 2 ^ 128)
  ∧ bigintToKey16 (key16ToBigint (List.replicate 16 7)) = List.replicate 16 7 :=
  key16_bigint_roundtrip 3 (List.replicate 16 7) (by decide) (by decide)

/-! ### Key import/export -/

/-- C6: importing a 16-byte raw key and exporting it back reproduces the same
16 bytes; the imported key is extractable, so the export succeeds. -/
theorem aes_key_import_export_roundtrip (raw : List Nat) (h : raw.length = 16) :
    (aesImportRaw16 raw).bind aesExportRaw16 = .ok raw := by
  unfold aesImportRaw16 aesExportRaw16 subtleImportRaw subtleExportRaw
  rw [if_neg (by omega)]
  show (if raw.length ≠ 16 then Except.error exportLengthError else Except.ok raw) = Except.ok raw
  rw [if_neg (by omega)]

/-- C6 witness: the all-ones 16-byte key. -/
theorem aes_key_import_export_roundtrip_witness :
    (aesImportRaw16 (List.replicate 16 1)).bind aesExportRaw16
      = .ok (List.replicate 16 1) :=
  aes_key_import_export_roundtrip (List.replicate 16 1) (by decide)

/-! ### Lemmas about string preludes and substrings -/

theorem leadsWith_iff_append (p : List Char) : ∀ s : List Char,
    leadsWith p s = true ↔ ∃ t, s = p ++ t := by
  induction p with
  | nil =>
    intro s
    simp [leadsWith]
  | cons c cs ih =>
    intro s
    cases s with
    | nil =>
      simp [leadsWith]
    | cons d ds =>
      rw [leadsWith, Bool.and_eq_true, beq_iff_eq]
      constructor
      · rintro ⟨rfl, h2⟩
        obtain ⟨t, rfl⟩ := (ih ds).mp h2
        exact ⟨t, rfl⟩
      · rintro ⟨t, ht⟩
        injection ht with h1 h2
        subst h1
        exact ⟨rfl, (ih ds).mpr ⟨t, h2⟩⟩

theorem endsWithChars_iff_append (suf s : List Char) :
    endsWithChars suf s = true ↔ ∃ t, s = t ++ suf := by
  unfold endsWithChars
  rw [leadsWith_iff_append]
  constructor
  · rintro ⟨t, ht⟩
    refine ⟨t.reverse, ?_⟩
    have := congrArg List.reverse ht
    simpa using this
  · rintro ⟨t, rfl⟩
    exact ⟨t.reverse, by simp⟩

theorem hasSub_of_leadsWith (p s : List Char) (h : leadsWith p s = true) :
    hasSub p s = true := by
  cases s with
  | nil => exact h
  | cons c cs =>
    rw [hasSub, h]
    rfl

theorem hasSub_append_left (p s : List Char) (h : hasSub p s = true) :
    ∀ a : List Char, hasSub p (a ++ s) = true := by
  intro a
  induction a with
  | nil => exact h
  | cons c cs ih =>
    show hasSub p (c :: (cs ++ s)) = true
    rw [hasSub, ih]
    simp

theorem hasSub_of_endsWith (suf s rest : List Char)
    (h : endsWithChars suf s = true) : hasSub suf (s ++ rest) = true := by
  obtain ⟨t, rfl⟩ := (endsWithChars_iff_append suf s).mp h
  rw [List.append_assoc]
  exact hasSub_append_left suf (suf ++ rest)
    (hasSub_of_leadsWith _ _ ((leadsWith_iff_append suf (suf ++ rest)).mpr ⟨rest, rfl⟩)) t

/-! ### The WASM loading patch -/

/-- C8: iterating `load()` (each call invokes `_patchWasmLoading`) any number
of times from the constructor state wraps each platform primitive at most
once, and the patch state is already stable after the first call. -/
theorem wasm_patch_at_most_once (basePath : List Char) (n : Nat) :
    ((patchWasmLoading basePath)^[n] initialPatchState).fetchWrapCount ≤ 1
  ∧ ((patchWasmLoading basePath)^[n] initialPatchState).instantiateWrapCount ≤ 1
  ∧ (patchWasmLoading basePath)^[n + 1] initialPatchState
      = patchWasmLoading basePath initialPatchState := by
  have happlied : ∀ st : PatchState, (patchWasmLoading basePath st).wasmPatchApplied
      = (true : Bool) ∨ patchWasmLoading basePath st = st := by
    intro st
    unfold patchWasmLoading
    by_cases h : st.wasmPatchApplied
    · rw [if_pos h]
      exact Or.inr rfl
    · rw [if_neg h]
      by_cases hb : basePath.isEmpty
      · rw [if_pos hb]
        exact Or.inl rfl
      · rw [if_neg hb]
        exact Or.inl rfl
  have hfix : ∀ st : PatchState, st.wasmPatchApplied = true →
      patchWasmLoading basePath st = st := by
    intro st h
    unfold patchWasmLoading
    rw [if_pos h]
  have hstable : ∀ st : PatchState,
      patchWasmLoading basePath (patchWasmLoading basePath st)
        = patchWasmLoading basePath st := by
    intro st
    rcases happlied st with h | h
    · exact hfix _ h
    · rw [h]
      rcases happlied st with h2 | h2
      · rw [h] at h2
        exact hfix _ h2
      · exact h2
  have hiter : ∀ m : Nat, (patchWasmLoading basePath)^[m]
      (patchWasmLoading basePath initialPatchState)
        = patchWasmLoading basePath initialPatchState := by
    intro m
    induction m with
    | zero => rfl
    | succ m ih =>
      rw [Function.iterate_succ_apply, hstable]
      exact ih
  have hone : (patchWasmLoading basePath initialPatchState).fetchWrapCount ≤ 1
      ∧ (patchWasmLoading basePath initialPatchState).instantiateWrapCount ≤ 1 := by
    unfold patchWasmLoading initialPatchState
    by_cases hb : basePath.isEmpty
    · rw [if_neg (by decide), if_pos hb]
      exact ⟨by decide, by decide⟩
    · rw [if_neg (by decide), if_neg hb]
      exact ⟨by decide, by decide⟩
  cases n with
  | zero =>
    refine ⟨?_, ?_, rfl⟩
    · show initialPatchState.fetchWrapCount ≤ 1
      decide
    · show initialPatchState.instantiateWrapCount ≤ 1
      decide
  | succ m =>
    have h1 : (patchWasmLoading basePath)^[m + 1] initialPatchState
        = patchWasmLoading basePath initialPatchState := by
      rw [Function.iterate_succ_apply]
      exact hiter m
    refine ⟨?_, ?_, ?_⟩
    · rw [h1]; exact hone.1
    · rw [h1]; exact hone.2
    · rw [Function.iterate_succ_apply]
      exact hiter (m + 1)

/-- C7: with base path `"/farewell"`, every path-form WASM request (raw url
`pathname ++ search ++ hash`, pathname starting with `"/"`, ending in
`".wasm"` and not already starting with the base path) is rewritten to
`origin ++ basePath ++ pathname ++ search ++ hash`, preserving query and
fragment; any request whose url does not contain `".wasm"` is delegated
unmodified under every base path; and with an empty base path the patch
installs no wrapper at all. -/
theorem wasm_fetch_rewrite (r r2 : FetchRequest) (bp : List Char) (st : PatchState)
    (hraw : r.raw = r.pathname ++ r.search ++ r.hash)
    (hslash : leadsWith "/".data r.pathname = true)
    (hwasm : endsWithChars ".wasm".data r.pathname = true)
    (hnb : leadsWith "/farewell".data r.pathname = false)
    (hnw : hasSub ".wasm".data r2.raw = false) :
    patchedFetchTarget "/farewell".data r
      = r.origin ++ "/farewell".data ++ r.pathname ++ r.search ++ r.hash
  ∧ patchedFetchTarget bp r2 = r2.raw
  ∧ (patchWasmLoading [] st).fetchWrapCount = st.fetchWrapCount
  ∧ (patchWasmLoading [] st).instantiateWrapCount = st.instantiateWrapCount := by
  refine ⟨?_, ?_, ?_, ?_⟩
  · unfold patchedFetchTarget
    have hsub : hasSub ".wasm".data r.raw = true := by
      rw [hraw, List.append_assoc]
      exact hasSub_of_endsWith _ _ _ hwasm
    rw [hsub]
    have hcond : (endsWithChars ".wasm".data r.raw || true) = true := by simp
    rw [hcond]
    simp only [if_true]
    rw [hslash, hnb]
    simp
  · unfold patchedFetchTarget
    have hend : endsWithChars ".wasm".data r2.raw = false := by
      by_contra hc
      have he : endsWithChars ".wasm".data r2.raw = true := by
        cases h : endsWithChars ".wasm".data r2.raw
        · exact absurd h hc
        · rfl
      obtain ⟨t, ht⟩ := (endsWithChars_iff_append _ _).mp he
      have : hasSub ".wasm".data r2.raw = true := by
        rw [ht]
        have := hasSub_of_endsWith ".wasm".data r2.raw []
          ((endsWithChars_iff_append _ _).mpr ⟨t, ht⟩)
        rw [List.append_nil] at this
        rw [← ht]
        exact this
      rw [this] at hnw
      exact Bool.noConfusion hnw
    rw [hend, hnw]
    rfl
  · unfold patchWasmLoading
    by_cases h : st.wasmPatchApplied
    · rw [if_pos h]
    · rw [if_neg h, if_pos (by decide)]
  · unfold patchWasmLoading
    by_cases h : st.wasmPatchApplied
    · rw [if_pos h]
    · rw [if_neg h, if_pos (by decide)]

/-- C7 witness: the spec's own example, a fetch of `"/tfhe_bg.wasm"` rewritten
to `"/farewell/tfhe_bg.wasm"` on the same origin, plus a non-WASM request
`"/app.js"` passed through and the empty-base-path no-op on the constructor
state. -/
theorem wasm_fetch_rewrite_witness :
    patchedFetchTarget "/farewell".data
        ⟨"/tfhe_bg.wasm".data, "https://www.iampedro.com".data,
          "/tfhe_bg.wasm".data, [], []⟩
      = "https://www.iampedro.com".data ++ "/farewell".data
          ++ "/tfhe_bg.wasm".data ++ [] ++ []
  ∧ patchedFetchTarget "/farewell".data
        ⟨"/app.js".data, "https://www.iampedro.com".data, "/app.js".data, [], []⟩
      = "/app.js".data
  ∧ (patchWasmLoading [] initialPatchState).fetchWrapCount
      = initialPatchState.fetchWrapCount
  ∧ (patchWasmLoading [] initialPatchState).instantiateWrapCount
      = initialPatchState.instantiateWrapCount :=
  wasm_fetch_rewrite
    ⟨"/tfhe_bg.wasm".data, "https://www.iampedro.com".data,
      "/tfhe_bg.wasm".data, [], []⟩
    ⟨"/app.js".data, "https://www.iampedro.com".data, "/app.js".data, [], []⟩
    "/farewell".data initialPatchState
    (by simp) (by decide) (by decide) (by decide) (by decide)

/-! ### Lemmas about the aes.ts hex packing -/

theorem jsHexDigitVal_hexDigitChar (d : Nat) (hd : d < 16) :
    jsHexDigitVal (hexDigitChar d) = some d := by
  interval_cases d <;> decide

theorem byteToHexChars_length (b : Nat) : (byteToHexChars b).length = 2 := by
  unfold byteToHexChars
  by_cases h : b < 16
  · rw [if_pos h]; rfl
  · rw [if_neg h]; rfl

theorem flatten_byteToHex_length (bs : List Nat) :
    ((bs.map byteToHexChars).flatten).length = 2 * bs.length := by
  induction bs with
  | nil => rfl
  | cons b rest ih =>
    simp only [List.map_cons, List.flatten_cons, List.length_append, ih,
      List.length_cons, byteToHexChars_length]
    omega

theorem pairsToBytes_byteToHex (bs : List Nat) (hb : ∀ b ∈ bs, b < 256) :
    pairsToBytes ((bs.map byteToHexChars).flatten) = bs := by
  induction bs with
  | nil => rfl
  | cons b rest ih =>
    have hb256 : b < 256 := hb b (by simp)
    have hrest : ∀ x ∈ rest, x < 256 := fun x hx => hb x (by simp [hx])
    simp only [List.map_cons, List.flatten_cons]
    by_cases h : b < 16
    · rw [show byteToHexChars b = ['0', hexDigitChar b] from by
        unfold byteToHexChars; rw [if_pos h]]
      show parseIntHex2 '0' (hexDigitChar b) :: pairsToBytes ((rest.map byteToHexChars).flatten)
        = b :: rest
      have hv : parseIntHex2 '0' (hexDigitChar b) = b := by
        unfold parseIntHex2
        rw [show jsHexDigitVal '0' = some 0 from by decide,
          jsHexDigitVal_hexDigitChar b h]
        show 16 * 0 + b = b
        omega
      rw [hv, ih hrest]
    · rw [show byteToHexChars b = [hexDigitChar (b / 16), hexDigitChar (b % 16)] from by
        unfold byteToHexChars; rw [if_neg h]]
      show parseIntHex2 (hexDigitChar (b / 16)) (hexDigitChar (b % 16))
          :: pairsToBytes ((rest.map byteToHexChars).flatten) = b :: rest
      have hv : parseIntHex2 (hexDigitChar (b / 16)) (hexDigitChar (b % 16)) = b := by
        unfold parseIntHex2
        rw [jsHexDigitVal_hexDigitChar _ (by omega), jsHexDigitVal_hexDigitChar _ (by omega)]
        show 16 * (b / 16) + b % 16 = b
        omega
      rw [hv, ih hrest]

theorem hexToBytes_bytesToHex (bs : List Nat) (hb : ∀ b ∈ bs, b < 256) :
    hexToBytesChars (bytesToHexChars bs) = .ok bs := by
  unfold hexToBytesChars bytesToHexChars
  have hstrip : strip0x ('0' :: 'x' :: (bs.map byteToHexChars).flatten)
      = (bs.map byteToHexChars).flatten := by
    unfold strip0x
    rw [show leadsWith "0x".data ('0' :: 'x' :: (bs.map byteToHexChars).flatten) = true from by
      show leadsWith ['0', 'x'] _ = true
      simp [leadsWith]]
    rfl
  rw [hstrip, if_neg (by rw [flatten_byteToHex_length]; omega),
    pairsToBytes_byteToHex bs hb]

/-! ### The AES-GCM packing claims -/

/-- C1: for every plaintext `m`, key and fresh 12-byte IV, decrypting the
packed value produced by encryption recovers `m`, given the platform
contracts: the cipher output is bytes carrying at least the 16-byte tag, the
platform decrypt inverts the platform encrypt at this point, and the UTF-8
codec round-trips `m`. -/
theorem aes_decrypt_encrypt_roundtrip (P : SubtleCrypto) (m : String)
    (key iv : List Nat)
    (hivlen : iv.length = 12) (hivb : ∀ b ∈ iv, b < 256)
    (hctb : ∀ b ∈ P.aesGcmEncrypt key iv (P.utf8Encode m), b < 256)
    (hctlen : 16 ≤ (P.aesGcmEncrypt key iv (P.utf8Encode m)).length)
    (hdec : P.aesGcmDecrypt key iv 128 none
        (P.aesGcmEncrypt key iv (P.utf8Encode m)) = .ok (P.utf8Encode m))
    (hutf : P.utf8Decode (P.utf8Encode m) = m) :
    decryptUtf8AesGcmPacked P (encryptUtf8AesGcmPacked P iv m key) key none 128
      = .ok m := by
  have hbytes : ∀ b ∈ iv ++ P.aesGcmEncrypt key iv (P.utf8Encode m), b < 256 := by
    intro b hbm
    rcases List.mem_append.mp hbm with h | h
    · exact hivb b h
    · exact hctb b h
  have hpacked : (encryptUtf8AesGcmPacked P iv m key).data
      = bytesToHexChars (iv ++ P.aesGcmEncrypt key iv (P.utf8Encode m)) := rfl
  have htake : (iv ++ P.aesGcmEncrypt key iv (P.utf8Encode m)).take 12 = iv := by
    rw [← hivlen]
    exact List.take_left iv _
  have hdrop : (iv ++ P.aesGcmEncrypt key iv (P.utf8Encode m)).drop 12
      = P.aesGcmEncrypt key iv (P.utf8Encode m) := by
    rw [← hivlen]
    exact List.drop_left iv _
  have hcond : ¬ (iv ++ P.aesGcmEncrypt key iv (P.utf8Encode m)).length < 12 + 128 / 8 := by
    simp only [List.length_append, hivlen]
    omega
  have hbody : decryptUtf8AesGcmPackedBody P (encryptUtf8AesGcmPacked P iv m key)
      key none 128 = .ok m := by
    unfold decryptUtf8AesGcmPackedBody
    rw [hpacked, hexToBytes_bytesToHex _ hbytes]
    show decryptAfterDecode P key none 128 (iv ++ P.aesGcmEncrypt key iv (P.utf8Encode m))
      = .ok m
    unfold decryptAfterDecode
    rw [if_neg hcond, htake, hdrop, hdec]
    show Except.ok (P.utf8Decode (P.utf8Encode m)) = Except.ok m
    rw [hutf]
  unfold decryptUtf8AesGcmPacked
  rw [hbody]

/-- C1 witness: the toy platform at `m = "hi"`, the all-zero key and IV. -/
theorem aes_decrypt_encrypt_roundtrip_witness :
    decryptUtf8AesGcmPacked toySubtle
        (encryptUtf8AesGcmPacked toySubtle (List.replicate 12 0) "hi" (List.replicate 16 0))
        (List.replicate 16 0) none 128 = .ok "hi" :=
  aes_decrypt_encrypt_roundtrip toySubtle "hi" (List.replicate 16 0) (List.replicate 12 0)
    (by decide) (by decide) (by decide) (by decide) (by decide) (by decide)

/-- C2 counterexample: at the 0-byte packed value `"0x"` (decoded length
below 28) the surfaced error is the generic wrapped decrypt-failure error,
not the distinct `cipher too short` error the guard builds: the guard throws
inside the try block and the catch-all replaces it. -/
theorem decrypt_short_counterexample :
    decryptUtf8AesGcmPacked toySubtle "0x" [] none 128
      = .error ⟨"Error", "AES-GCM decrypt failed: Error (likely key/IV/tag/AAD mismatch)"⟩
  ∧ decryptUtf8AesGcmPacked toySubtle "0x" [] none 128
      ≠ .error cipherTooShortError := by
  decide

/-- C2 (amended): for every packed value whose decode succeeds with fewer than
28 bytes, decrypt fails with the wrapped form of the `cipher too short` error
(the catch-all re-wraps it; the distinct short-input error is not surfaced),
and the outcome is the same for every platform, key and associated data — the
platform decrypt is never consulted. -/
theorem decrypt_short_is_wrapped (P P2 : SubtleCrypto) (packed : String)
    (key key2 : List Nat) (aad aad2 : Option (List Nat)) (data : List Nat)
    (hdecode : hexToBytesChars packed.data = .ok data)
    (hlen : data.length < 28) :
    decryptUtf8AesGcmPacked P packed key aad 128
      = .error (wrapAesDecryptError cipherTooShortError)
  ∧ decryptUtf8AesGcmPacked P2 packed key2 aad2 128
      = decryptUtf8AesGcmPacked P packed key aad 128 := by
  have hbody : ∀ (Q : SubtleCrypto) (kk : List Nat) (aa : Option (List Nat)),
      decryptUtf8AesGcmPackedBody Q packed kk aa 128 = .error cipherTooShortError := by
    intro Q kk aa
    unfold decryptUtf8AesGcmPackedBody
    rw [hdecode]
    show decryptAfterDecode Q kk aa 128 data = .error cipherTooShortError
    unfold decryptAfterDecode
    rw [if_pos (by omega)]
  have hwrap : ∀ (Q : SubtleCrypto) (kk : List Nat) (aa : Option (List Nat)),
      decryptUtf8AesGcmPacked Q packed kk aa 128
        = .error (wrapAesDecryptError cipherTooShortError) := by
    intro Q kk aa
    unfold decryptUtf8AesGcmPacked
    rw [hbody Q kk aa]
  exact ⟨hwrap P key aad, by rw [hwrap P key aad, hwrap P2 key2 aad2]⟩

/-- C2 witness: the empty packed value `"0x"` under two different platforms.
-/
theorem decrypt_short_is_wrapped_witness :
    decryptUtf8AesGcmPacked toySubtle "0x" [] none 128
      = .error (wrapAesDecryptError cipherTooShortError)
  ∧ decryptUtf8AesGcmPacked opErrSubtle "0x" (List.replicate 16 1) none 128
      = decryptUtf8AesGcmPacked toySubtle "0x" [] none 128 :=
  decrypt_short_is_wrapped toySubtle opErrSubtle "0x" [] (List.replicate 16 1)
    none none [] (by decide) (by decide)

/-- C3: whenever the platform decrypt fails with any error `e`, the surfaced
error is the single wrapped decrypt-failure error: a fresh `Error` (name
`"Error"`, fixed message shape), never the platform's own exception — in
particular it differs from `e` whenever `e` carries a platform error name. -/
theorem decrypt_failure_single_taxonomy (P : SubtleCrypto) (packed : String)
    (key : List Nat) (aad : Option (List Nat)) (tl : Nat) (data : List Nat)
    (e : JsError)
    (hdecode : hexToBytesChars packed.data = .ok data)
    (hlen : ¬ data.length < 12 + tl / 8)
    (hfail : P.aesGcmDecrypt key (data.take 12) tl aad (data.drop 12) = .error e) :
    decryptUtf8AesGcmPacked P packed key aad tl = .error (wrapAesDecryptError e)
  ∧ (wrapAesDecryptError e).name = "Error"
  ∧ (e.name ≠ "Error" → wrapAesDecryptError e ≠ e) := by
  have hname : (wrapAesDecryptError e).name = "Error" := by
    unfold wrapAesDecryptError
    by_cases h : e.name ≠ ""
    · rw [if_pos h]
    · rw [if_neg h]
  have hbody : decryptUtf8AesGcmPackedBody P packed key aad tl = .error e := by
    unfold decryptUtf8AesGcmPackedBody
    rw [hdecode]
    show decryptAfterDecode P key aad tl data = .error e
    unfold decryptAfterDecode
    rw [if_neg hlen, hfail]
  refine ⟨?_, hname, ?_⟩
  · unfold decryptUtf8AesGcmPacked
    rw [hbody]
  · intro hne hcontra
    rw [hcontra] at hname
    exact hne hname

/-- C3 witness: a 28-byte all-zero packed value under the platform that fails
with `OperationError`, as WebCrypto does on any key/IV/tag/AAD mismatch. -/
theorem decrypt_failure_single_taxonomy_witness :
    decryptUtf8AesGcmPacked opErrSubtle
        "0x00000000000000000000000000000000000000000000000000000000"
        (List.replicate 16 1) none 128
      = .error (wrapAesDecryptError ⟨"OperationError", ""⟩)
  ∧ (wrapAesDecryptError ⟨"OperationError", ""⟩).name = "Error"
  ∧ ((⟨"OperationError", ""⟩ : JsError).name ≠ "Error" →
      wrapAesDecryptError ⟨"OperationError", ""⟩ ≠ ⟨"OperationError", ""⟩) :=
  decrypt_failure_single_taxonomy opErrSubtle
    "0x00000000000000000000000000000000000000000000000000000000"
    (List.replicate 16 1) none 128 (List.replicate 28 0) ⟨"OperationError", ""⟩
    (by decide) (by decide) (by decide)

/-- C4: the aes.ts revision of `encryptUtf8AesGcmPacked` cited by the claim
calls `printKeyHex`, which writes the key's full hex to the console: at the
all-zero 16-byte key the call emits exactly the line
`"Key (hex): 000...0"` — the secret key material is logged. -/
theorem encrypt_logs_key_hex :
    (encryptUtf8AesGcmPackedLogged toySubtle (List.replicate 12 0) "hi"
        (List.replicate 16 0)).2
      = ["Key (hex): 00000000000000000000000000000000"]
  ∧ printKeyHexLine (List.replicate 16 0)
      = ⟨"Key (hex): ".data ++ bufToHexChars (List.replicate 16 0)⟩ := by
  exact ⟨by decide, rfl⟩

end Farewell
